import Mathlib

/-!
# Verification of the vocabsnap extraction pipeline and SRS scheduler

Shallow embedding of the JavaScript sources of the vocabsnap repository:

* `src/js/ocr.js` — the OCR text parser (`parseSystemEitan`, `parseEntry`,
  `extractWordsFromRawText`, `extractSynonyms` and helper classifiers);
* `src/unnamed/part_003` — the SM-2 based scheduler (`SRS.calculate`,
  `SRS.getDueWords`, `SRS.getLevel`, `SRS.initialData`);
* `src/unnamed/part_000` — the review-session driver (`answerFlashcard`,
  `checkSpelling`, `handleMatchingTileClick`), restricted to the per-word
  state updates it performs.

Modelling conventions:

* JavaScript strings are modelled as `List Char` (Unicode code points; every
  character appearing in the sources and the concrete test inputs lies in the
  Basic Multilingual Plane, where code points and UTF-16 units coincide).
* JavaScript numbers holding integers (timestamps, counters, intervals,
  qualities) are modelled as `ℤ`; the ease factor is modelled as `ℚ`.  All
  ease-factor arithmetic in the source adds multiples of `0.02` and rounds the
  result to two decimal places (`Math.round(x * 100) / 100`), so the binary
  floating-point drift of at most a few ulps is absorbed by the rounding and
  the exact rational model agrees with the JavaScript value.
* `Math.round` rounds half toward `+∞`, exactly as Mathlib's `round`
  (`round x = ⌊x + 1/2⌋`), so `round : ℚ → ℤ` models it.
* `Date.now()` is an ambient input of `SRS.calculate`; it is made explicit as
  a `now : ℤ` parameter (milliseconds since the epoch, positive in any real
  execution).
* The regular expressions of `ocr.js` are compiled by hand into character-list
  functions.  Each function documents the regex it implements; backtracking
  is resolved statically where the character classes are disjoint (e.g. a
  digit is never a space), which makes the greedy/lazy behaviour deterministic.
-/

namespace Vocabsnap

/-! ## JavaScript character classes -/

/-- JavaScript `\s` (ECMAScript WhiteSpace ∪ LineTerminator). -/
def jsWhitespace (c : Char) : Bool :=
  let n := c.toNat
  n == 0x09 || n == 0x0A || n == 0x0B || n == 0x0C || n == 0x0D ||
  n == 0x20 || n == 0xA0 || n == 0x1680 ||
  (0x2000 ≤ n && n ≤ 0x200A) ||
  n == 0x2028 || n == 0x2029 || n == 0x202F || n == 0x205F ||
  n == 0x3000 || n == 0xFEFF

/-- JavaScript `\d`, i.e. `[0-9]`. -/
def isDigitCh (c : Char) : Bool :=
  0x30 ≤ c.toNat && c.toNat ≤ 0x39

/-- `[a-zA-Z]`. -/
def isLatinCh (c : Char) : Bool :=
  (0x41 ≤ c.toNat && c.toNat ≤ 0x5A) || (0x61 ≤ c.toNat && c.toNat ≤ 0x7A)

/-- JavaScript `\w`, i.e. `[A-Za-z0-9_]`. -/
def isWordCh (c : Char) : Bool :=
  isLatinCh c || isDigitCh c || c == '_'

/-- The character class `[\w\s-]` used in the headword pattern of `parseEntry`. -/
def isWordSpaceHyphen (c : Char) : Bool :=
  isWordCh c || jsWhitespace c || c == '-'

/-- The character class `[\w-]` used in the fallback headword pattern. -/
def isWordHyphen (c : Char) : Bool :=
  isWordCh c || c == '-'

/-- The Japanese script ranges of `isJapaneseMajority`:
`[぀-ゟ゠-ヿ一-鿿㐀-䶿]`. -/
def isJapaneseCh (c : Char) : Bool :=
  let n := c.toNat
  (0x3040 ≤ n && n ≤ 0x309F) || (0x30A0 ≤ n && n ≤ 0x30FF) ||
  (0x4E00 ≤ n && n ≤ 0x9FFF) || (0x3400 ≤ n && n ≤ 0x4DBF)

/-- Opening brackets `[\[（(]`. -/
def isOpenBracket (c : Char) : Bool :=
  c == '[' || c == '（' || c == '('

/-- Closing brackets `[\]）)]`. -/
def isCloseBracket (c : Char) : Bool :=
  c == ']' || c == '）' || c == ')'

/-- The nine part-of-speech tag characters `(形|名|動|副|接|前|助|間|代)`. -/
def isPosTag (c : Char) : Bool :=
  c == '形' || c == '名' || c == '動' || c == '副' || c == '接' ||
  c == '前' || c == '助' || c == '間' || c == '代'

/-- The six tag characters `[形名動副接前]` accepted as a headword terminator. -/
def isPosTag6 (c : Char) : Bool :=
  c == '形' || c == '名' || c == '動' || c == '副' || c == '接' || c == '前'

/-- Synonym-line lead markers `[≒≈~～類同]`. -/
def isSynMarker (c : Char) : Bool :=
  c == '≒' || c == '≈' || c == '~' || c == '～' || c == '類' || c == '同'

/-- Antonym-line lead markers `[⇔↔反]`. -/
def isAntMarker (c : Char) : Bool :=
  c == '⇔' || c == '↔' || c == '反'

/-- The full marker class `[≒≈~～⇔↔類同反\s]` stripped by `extractSynonyms`. -/
def isSynAntOrSpace (c : Char) : Bool :=
  isSynMarker c || isAntMarker c || jsWhitespace c

/-- Separator class `[,、\s]` of the `extractSynonyms` tokenizer. -/
def isSynSep (c : Char) : Bool :=
  c == ',' || c == '、' || jsWhitespace c

/-! ## JavaScript string operations on `List Char` -/

/-- Coerce a Lean string literal to the character-list model. -/
def str (s : String) : List Char := s.toList

/-- `String.prototype.trim`: strip `\s` from both ends. -/
def jsTrim (l : List Char) : List Char :=
  ((l.dropWhile jsWhitespace).reverse.dropWhile jsWhitespace).reverse

/-- `text.split(c)` for a single-character separator: every occurrence of the
separator starts a new piece; `"".split(c) = [""]`. -/
def splitOnChar (c : Char) : List Char → List (List Char)
  | [] => [[]]
  | x :: xs =>
    if x = c then [] :: splitOnChar c xs
    else
      match splitOnChar c xs with
      | t :: ts => (x :: t) :: ts
      | [] => [[x]]

/-- `text.split(re)` for a separator regex of the form `[…]+`: maximal runs of
separator characters split the string; a leading or trailing run contributes
an empty piece, exactly as JavaScript's `String.prototype.split`. -/
def splitOnRuns (sep : Char → Bool) : List Char → List (List Char)
  | [] => [[]]
  | x :: xs =>
    if sep x then
      match xs with
      | y :: _ => if sep y then splitOnRuns sep xs else [] :: splitOnRuns sep xs
      | [] => [] :: splitOnRuns sep xs
    else
      match splitOnRuns sep xs with
      | t :: ts => (x :: t) :: ts
      | [] => [[x]]

/-- `text.split('\n').map(l => l.trim()).filter(l => l.length > 0)` —
the line preprocessing shared by `parseSystemEitan` and
`extractWordsFromRawText`. -/
def processLines (text : List Char) : List (List Char) :=
  ((splitOnChar '\n' text).map jsTrim).filter (fun l => l ≠ [])

/-! ## Line classifiers (`ocr.js` helper functions)

`isJapaneseMajority` counts characters of the Japanese ranges against all
non-whitespace characters and tests `jp / total > 0.3`; the ratio is compared
in integers (`10 * jp > 3 * total`), which agrees with the JavaScript
double-precision comparison for every feasible line length. -/

def isJapaneseMajority (text : List Char) : Bool :=
  let japaneseChars := (text.filter isJapaneseCh).length
  let totalChars := (text.filter (fun c => !(jsWhitespace c))).length
  totalChars > 0 && 10 * japaneseChars > 3 * totalChars

/-- `isEnglishMajority`: Latin letters against non-whitespace characters,
`eng / total > 0.5`, compared as `2 * eng > total`. -/
def isEnglishMajority (text : List Char) : Bool :=
  let englishChars := (text.filter isLatinCh).length
  let totalChars := (text.filter (fun c => !(jsWhitespace c))).length
  totalChars > 0 && 2 * englishChars > totalChars

/-! ## Regex emulation

Each search function implements one regular expression from `ocr.js`,
character class by character class.  Unanchored searches scan the string left
to right for the first start position at which the pattern matches, exactly
as the JavaScript engine does. -/

/-- Test of `/^\d{1,4}\s+[a-zA-Z]/` (the numbered-entry boundary of
`parseSystemEitan`).  The digit prefix is maximal (a whitespace character is
never a digit, so backtracking within `\d{1,4}` cannot succeed when the run
is longer than 4). -/
def entryStartTest (l : List Char) : Bool :=
  let ds := l.takeWhile isDigitCh
  let afterDigits := l.dropWhile isDigitCh
  let ws := afterDigits.takeWhile jsWhitespace
  let afterWs := afterDigits.dropWhile jsWhitespace
  1 ≤ ds.length && ds.length ≤ 4 && 1 ≤ ws.length &&
  (match afterWs with
   | c :: _ => isLatinCh c
   | [] => false)

/-- Test of `/^[a-zA-Z]{2,}\s*[\[（(]/ || /^[a-zA-Z]{2,}\s+(形|名|動|副|接|前)/`
(the phonetic/POS-marker boundary of `parseSystemEitan`). -/
def markerBoundaryTest (l : List Char) : Bool :=
  let ls := l.takeWhile isLatinCh
  let rest := l.dropWhile isLatinCh
  let ws := rest.takeWhile jsWhitespace
  let afterWs := rest.dropWhile jsWhitespace
  2 ≤ ls.length &&
  (match afterWs with
   | c :: _ => isOpenBracket c || (1 ≤ ws.length && isPosTag6 c)
   | [] => false)

/-- First match of `/[\[（(]([^\]）)]+)[\]）)]/`: the capture is the maximal
nonempty run of non-closing-bracket characters after the first opening
bracket that is in fact terminated by a closing bracket; on failure the scan
resumes at the next position. -/
def phoneticSearch : List Char → Option (List Char)
  | [] => none
  | c :: cs =>
    if isOpenBracket c then
      let body := cs.takeWhile (fun d => !(isCloseBracket d))
      let rest := cs.dropWhile (fun d => !(isCloseBracket d))
      if body ≠ [] && rest ≠ [] then some body else phoneticSearch cs
    else phoneticSearch cs

/-- First occurrence of one of the nine POS tag characters
(`firstLine.match(/(形|名|動|副|接|前|助|間|代)/)`). -/
def posSearch (l : List Char) : Option Char :=
  l.find? isPosTag

/-- The terminator alternation `(?:\s*[\[（(]|$|\s+[形名動副接前])` of the
headword pattern of `parseEntry`. -/
def headwordTerminator (rest : List Char) : Bool :=
  let afterWs := rest.dropWhile jsWhitespace
  let ws := rest.takeWhile jsWhitespace
  (match afterWs with
   | c :: _ => isOpenBracket c || (1 ≤ ws.length && isPosTag6 c)
   | [] => false) ||
  rest = []

/-- The lazy capture `[\w\s-]*?` of the headword pattern: before consuming a
character the terminator alternation is tried, so the capture is the shortest
extension reaching a terminator; a character outside `[\w\s-]` aborts the
match at this start position. -/
def lazyHeadword (acc : List Char) : List Char → Option (List Char)
  | [] => if headwordTerminator [] then some acc.reverse else none
  | c :: cs =>
    if headwordTerminator (c :: cs) then some acc.reverse
    else if isWordSpaceHyphen c then lazyHeadword (c :: acc) cs
    else none

/-- Attempted match of `/\d+\s+([a-zA-Z][\w\s-]*?)(?:\s*[\[（(]|$|\s+[形名動副接前])/`
at a position whose head is a digit: maximal digit run, then at least one
whitespace character, then a Latin letter opening the lazy capture. -/
def tryHeadwordAt (l : List Char) : Option (List Char) :=
  let afterDigits := l.dropWhile isDigitCh
  let ws := afterDigits.takeWhile jsWhitespace
  let afterWs := afterDigits.dropWhile jsWhitespace
  if 1 ≤ ws.length then
    match afterWs with
    | c :: cs => if isLatinCh c then lazyHeadword [c] cs else none
    | [] => none
  else none

/-- Leftmost-match search for the headword pattern of `parseEntry`.
A failed attempt inside a digit run fails for every start inside the run
(the suffix after the run is the same), so scanning every position agrees
with the regex engine. -/
def headwordSearch : List Char → Option (List Char)
  | [] => none
  | c :: cs =>
    if isDigitCh c then
      match tryHeadwordAt (c :: cs) with
      | some w => some w
      | none => headwordSearch cs
    else headwordSearch cs

/-- Attempted match of the fallback `/\d+\s+([a-zA-Z][\w-]+)/` at a position
whose head is a digit. -/
def trySimpleHeadwordAt (l : List Char) : Option (List Char) :=
  let afterDigits := l.dropWhile isDigitCh
  let ws := afterDigits.takeWhile jsWhitespace
  let afterWs := afterDigits.dropWhile jsWhitespace
  if 1 ≤ ws.length then
    match afterWs with
    | c :: cs =>
      if isLatinCh c then
        let tail := cs.takeWhile isWordHyphen
        if 1 ≤ tail.length then some (c :: tail) else none
      else none
    | [] => none
  else none

/-- Leftmost-match search for the fallback headword pattern. -/
def simpleHeadwordSearch : List Char → Option (List Char)
  | [] => none
  | c :: cs =>
    if isDigitCh c then
      match trySimpleHeadwordAt (c :: cs) with
      | some w => some w
      | none => simpleHeadwordSearch cs
    else simpleHeadwordSearch cs

/-- Leftmost match of `[start]\s*([JP].+)` where `start` selects the leading
character class (POS tags for the first pattern of `extractJapanesePart`,
closing brackets for the second): after the start character and an entire
whitespace run there must be a Japanese-range character with at least one
further character; the capture runs to the end of the line (`.+` is greedy
and lines contain no line terminators). -/
def jpPartAfter (start : Char → Bool) : List Char → Option (List Char)
  | [] => none
  | c :: cs =>
    if start c then
      match cs.dropWhile jsWhitespace with
      | j :: rest =>
        if isJapaneseCh j && rest ≠ [] then some (j :: rest)
        else jpPartAfter start cs
      | [] => jpPartAfter start cs
    else jpPartAfter start cs

/-- `extractJapanesePart(line, word)`: try
`/(?:形|名|動|副|接|前|助|間|代)\s*([JP].+)/`, then `/[\]）)]\s*([JP].+)/`,
returning the trimmed capture, else the empty string.  (The `word` argument
is unused in the source as well.) -/
def extractJapanesePart (line : List Char) (_word : List Char) : List Char :=
  match jpPartAfter isPosTag line with
  | some r => jsTrim r
  | none =>
    match jpPartAfter isCloseBracket line with
    | some r => jsTrim r
    | none => []

/-- `extractSynonyms(line)`: strip the leading run of marker/whitespace
characters, split on `[,、\s]+`, trim each token and keep those starting with
a Latin letter and longer than one character. -/
def extractSynonyms (line : List Char) : List (List Char) :=
  let cleaned := line.dropWhile isSynAntOrSpace
  ((splitOnRuns isSynSep cleaned).map jsTrim).filter
    (fun s =>
      (match s with
       | c :: _ => isLatinCh c
       | [] => false) && 1 < s.length)

/-! ## Parsed entries (`ParsedCandidate`) -/

/-- One example-sentence pair `{ en, ja }`. -/
structure ExamplePair where
  en : List Char
  ja : List Char
deriving DecidableEq

/-- The entry object built by `parseEntry` / `extractWordsFromRawText`
(`word`, `meaning`, `phonetic`, `pos`, `examples`, `synonyms`, `antonyms`). -/
structure Entry where
  word : List Char
  meaning : List Char
  phonetic : List Char
  pos : List Char
  examples : List ExamplePair
  synonyms : List (List Char)
  antonyms : List (List Char)
deriving DecidableEq

/-- `/^[c]/.test(line)` for a single-character class: test the first character. -/
def startsWithClass (p : Char → Bool) : List Char → Bool
  | [] => false
  | c :: _ => p c

/-- The body of `parseEntry`'s classification loop for one non-first line
(for lines after the first, the loop's `i > 0` guard always holds).  The
state is the entry built so far and the pending example `currentExample`. -/
def parseEntryStep (st : Entry × ExamplePair) (line : List Char) : Entry × ExamplePair :=
  let entry := st.1
  let cur := st.2
  if startsWithClass isSynMarker line then
    ({ entry with synonyms := entry.synonyms ++ extractSynonyms line }, cur)
  else if startsWithClass isAntMarker line then
    ({ entry with antonyms := entry.antonyms ++ extractSynonyms line }, cur)
  else if isJapaneseMajority line then
    if entry.meaning = [] then ({ entry with meaning := line }, cur)
    else if cur.en ≠ [] then
      ({ entry with examples := entry.examples ++ [⟨cur.en, line⟩] }, ⟨[], []⟩)
    else (entry, cur)
  else if isEnglishMajority line then
    if cur.en ≠ [] then
      ({ entry with examples := entry.examples ++ [cur] }, ⟨line, []⟩)
    else (entry, ⟨line, []⟩)
  else (entry, cur)

/-- `parseEntry(lines)`: `null` on an empty group; otherwise headword,
phonetic and POS tag from the first line, the first-line meaning via
`extractJapanesePart`, then the classification loop over the remaining
lines, flushing a pending example at the end. -/
def parseEntry (lines : List (List Char)) : Option Entry :=
  match lines with
  | [] => none
  | firstLine :: rest =>
    let word :=
      match headwordSearch firstLine with
      | some w => jsTrim w
      | none =>
        match simpleHeadwordSearch firstLine with
        | some w => jsTrim w
        | none => []
    let phonetic := (phoneticSearch firstLine).getD []
    let pos :=
      match posSearch firstLine with
      | some c => [c]
      | none => []
    let meaning := extractJapanesePart firstLine word
    let init : Entry := ⟨word, meaning, phonetic, pos, [], [], []⟩
    let st := rest.foldl parseEntryStep (init, ⟨[], []⟩)
    some (if st.2.en ≠ [] then
            { st.1 with examples := st.1.examples ++ [st.2] }
          else st.1)

/-- The indices pushed by `lines.forEach((line, index) => { if (p(line))
indices.push(index) })`, starting the count at `i`. -/
def matchIndices (p : List Char → Bool) : List (List Char) → ℕ → List ℕ
  | [], _ => []
  | l :: ls, i =>
    if p l then i :: matchIndices p ls (i + 1) else matchIndices p ls (i + 1)

/-- The groups `lines.slice(startIdx, endIdx)` for consecutive boundary
indices, the last group running to the end of the line list. -/
def sliceGroups (lines : List (List Char)) : List ℕ → List (List (List Char))
  | [] => []
  | [i] => [lines.drop i]
  | i :: j :: rest => ((lines.drop i).take (j - i)) :: sliceGroups lines (j :: rest)

/-- The stop list of `extractWordsFromRawText`. -/
def rawStopWords : List (List Char) :=
  [str "the", str "and", str "for", str "that", str "this", str "with",
   str "from", str "are", str "was", str "MINIMAL", str "PHRASES",
   str "Stage", str "Final", str "Basic", str "Verbs", str "his", str "her",
   str "its", str "our", str "you", str "him", str "she"]

/-- Match of `/^(\d+\s+)?([a-zA-Z]{2,}(?:\s+[a-zA-Z]+)?)\s*/` returning
capture group 2.  When the optional number+whitespace prefix is absent or
fails, the letter block must start the line. -/
def rawWordMatch (l : List Char) : Option (List Char) :=
  let ds := l.takeWhile isDigitCh
  let afterD := l.dropWhile isDigitCh
  let ws := afterD.takeWhile jsWhitespace
  let afterOpt :=
    if 1 ≤ ds.length && 1 ≤ ws.length then afterD.dropWhile jsWhitespace else l
  let ls := afterOpt.takeWhile isLatinCh
  if 2 ≤ ls.length then
    let rest := afterOpt.dropWhile isLatinCh
    let ws2 := rest.takeWhile jsWhitespace
    let afterWs2 := rest.dropWhile jsWhitespace
    let ls2 := afterWs2.takeWhile isLatinCh
    if 1 ≤ ws2.length && 1 ≤ ls2.length then some (ls ++ ws2 ++ ls2) else some ls
  else none

/-- `String.prototype.toLowerCase` restricted to ASCII letters — the only
letters `rawWordMatch` can produce. -/
def jsToLowerAscii (c : Char) : Char :=
  if 0x41 ≤ c.toNat && c.toNat ≤ 0x5A then Char.ofNat (c.toNat + 32) else c

/-- Lowercasing of a headword for the case-insensitive dedup check. -/
def lowerStr (l : List Char) : List Char := l.map jsToLowerAscii

/-- The scan of `extractWordsFromRawText` over the processed lines: headword
by `rawWordMatch`, stop-list and minimum-length filters, meaning from the
nearest Japanese-majority line among the next three, phonetic from the first
bracket group on the same line, case-insensitive dedup against the entries
already collected. -/
def extractWordsLoop : List (List Char) → List Entry → List Entry
  | [], entries => entries
  | line :: rest, entries =>
    match rawWordMatch line with
    | none => extractWordsLoop rest entries
    | some w =>
      let word := jsTrim w
      if rawStopWords.contains word then extractWordsLoop rest entries
      else if word.length < 3 then extractWordsLoop rest entries
      else
        let meaning := ((rest.take 3).find? isJapaneseMajority).getD []
        let phonetic := (phoneticSearch line).getD []
        if word ≠ [] && !(entries.any (fun e => lowerStr e.word = lowerStr word)) then
          extractWordsLoop rest (entries ++ [⟨word, meaning, phonetic, [], [], [], []⟩])
        else extractWordsLoop rest entries

/-- `extractWordsFromRawText(text)` — strategy 3 of the segmenter. -/
def extractWordsFromRawText (text : List Char) : List Entry :=
  extractWordsLoop (processLines text) []

/-- `parseSystemEitan(text)` for a (non-null) string argument: numbered-entry
boundaries first, then phonetic/POS-marker boundaries, then the raw-word
fallback; each boundary group is parsed by `parseEntry` and kept only when it
produced a non-empty headword (`if (entry && entry.word)`). -/
def parseSystemEitan (text : List Char) : List Entry :=
  if text = [] then []
  else
    let lines := processLines text
    let idx1 := matchIndices entryStartTest lines 0
    let idx := if idx1 = [] then matchIndices markerBoundaryTest lines 0 else idx1
    if idx = [] then extractWordsFromRawText text
    else
      (sliceGroups lines idx).filterMap (fun g =>
        match parseEntry g with
        | some e => if e.word ≠ [] then some e else none
        | none => none)

/-- `parseSystemEitan` including the guard
`if (!text || typeof text !== 'string') return []`: `none` models a `null`,
`undefined` or non-string argument. -/
def parseSystemEitanInput : Option (List Char) → List Entry
  | none => []
  | some t => parseSystemEitan t

/-! ## The SRS scheduler (`src/unnamed/part_003`) -/

/-- The scheduling state stored in `word.srs`.  `nextReview` and `lastReview`
are epoch-millisecond timestamps or `null` (`none`). -/
structure SRSData where
  repetitions : ℤ
  easeFactor : ℚ
  interval : ℤ
  nextReview : Option ℤ
  lastReview : Option ℤ
deriving DecidableEq

/-- JavaScript truthiness of a nullable timestamp: `null` and `0` are falsy.
Used by `!srs.lastReview`, `!w.srs.nextReview` and `(… ) || 0`. -/
def jsFalsyTime : Option ℤ → Bool
  | none => true
  | some t => t == 0

/-- `SRS.initialData()`. -/
def initialData : SRSData :=
  { repetitions := 0, easeFactor := 2.5, interval := 0
    nextReview := none, lastReview := none }

/-- `SRS.calculate(quality, repetitions, easeFactor, interval)`.  The ambient
`Date.now()` read by the source is the explicit parameter `now`; the source
performs no validation of any argument.  The `switch (newRepetitions)`
computes the new interval from the *prior* repetition count and the *input*
ease factor, after which the count is incremented; a quality below 3 resets
the count to 0 and the interval to 1.  The ease factor is updated
unconditionally, floored at 1.3 and rounded to two decimals
(`Math.round(x * 100) / 100`). -/
def srsCalculate (quality repetitions : ℤ) (easeFactor : ℚ) (interval now : ℤ) :
    SRSData :=
  let ri : ℤ × ℤ :=
    if 3 ≤ quality then
      (repetitions + 1,
       if repetitions = 0 then 1
       else if repetitions = 1 then 6
       else round ((interval : ℚ) * easeFactor))
    else (0, 1)
  let ease0 : ℚ :=
    easeFactor + (0.1 - (5 - (quality : ℚ)) * (0.08 + (5 - (quality : ℚ)) * 0.02))
  let ease1 : ℚ := if ease0 < 1.3 then 1.3 else ease0
  { repetitions := ri.1
    easeFactor := (round (ease1 * 100) : ℚ) / 100
    interval := ri.2
    nextReview := some (now + ri.2 * 24 * 60 * 60 * 1000)
    lastReview := some now }

/-- `SRS.calculate` applied to a whole `SRSData`, as every caller in the
repository invokes it (`SRS.calculate(q, srs.repetitions, srs.easeFactor,
srs.interval)`). -/
def srsCalculateState (quality : ℤ) (s : SRSData) (now : ℤ) : SRSData :=
  srsCalculate quality s.repetitions s.easeFactor s.interval now

/-- The four classification levels of `SRS.getLevel`. -/
inductive Level where
  | new
  | learning
  | reviewing
  | mastered
deriving DecidableEq

/-- `SRS.getLevel(word)` on the scheduling state: the guards are tested in
source order — `repetitions === 0 && !lastReview`, then `repetitions < 2`,
then `interval >= 21`. -/
def getLevel (srs : SRSData) : Level :=
  if srs.repetitions = 0 ∧ jsFalsyTime srs.lastReview then .new
  else if srs.repetitions < 2 then .learning
  else if 21 ≤ srs.interval then .mastered
  else .reviewing

/-- A stored vocabulary entry as seen by `SRS.getDueWords`: the `srs` field
may be absent (`!w.srs`). -/
structure Word where
  id : ℕ
  srs : Option SRSData
deriving DecidableEq

/-- The filter predicate of `SRS.getDueWords`:
`if (!w.srs || !w.srs.nextReview) return true; return w.srs.nextReview <= now`. -/
def isDueWord (w : Word) (now : ℤ) : Bool :=
  match w.srs with
  | none => true
  | some s =>
    match s.nextReview with
    | none => true
    | some t => t == 0 || t ≤ now

/-- The sort key `(w.srs && w.srs.nextReview) || 0` of `SRS.getDueWords`. -/
def dueSortKey (w : Word) : ℤ :=
  match w.srs with
  | none => 0
  | some s =>
    match s.nextReview with
    | none => 0
    | some t => t

/-- `SRS.getDueWords(words)` with the ambient `Date.now()` explicit: filter
the due words, then sort ascending by `dueSortKey` (the comparator
`aNext - bNext`; `Array.prototype.sort` is stable, as is `mergeSort`). -/
def getDueWords (words : List Word) (now : ℤ) : List Word :=
  (words.filter (fun w => isDueWord w now)).mergeSort
    (fun a b => dueSortKey a ≤ dueSortKey b)

/-! ## The review-session driver (`src/unnamed/part_000`)

Only the per-word updates are modelled: the DOM work, the session counters
(`state.fcCorrect`, …) and the persistence call (`VocabDB.updateWord`) do not
touch `word.srs` or `word.stats`. -/

/-- The per-mode outcome counters of `word.stats`. -/
structure WordStats where
  flashcardCorrect : ℤ
  flashcardIncorrect : ℤ
  spellingCorrect : ℤ
  spellingIncorrect : ℤ
  matchingCorrect : ℤ
  matchingIncorrect : ℤ
deriving DecidableEq

/-- A word during a study session; the driver dereferences `word.srs`
directly, so the field is not optional here. -/
structure StudyWord where
  word : List Char
  srs : SRSData
  stats : WordStats
deriving DecidableEq

/-- `answerFlashcard(correct)` restricted to the updates of the current word:
`word.stats.flashcardCorrect++; word.srs = SRS.calculate(4, …)` on a correct
answer, `flashcardIncorrect++` and quality 1 otherwise. -/
def answerFlashcardWord (correct : Bool) (w : StudyWord) (now : ℤ) : StudyWord :=
  if correct then
    { w with
      stats := { w.stats with flashcardCorrect := w.stats.flashcardCorrect + 1 }
      srs := srsCalculate 4 w.srs.repetitions w.srs.easeFactor w.srs.interval now }
  else
    { w with
      stats := { w.stats with flashcardIncorrect := w.stats.flashcardIncorrect + 1 }
      srs := srsCalculate 1 w.srs.repetitions w.srs.easeFactor w.srs.interval now }

/-- `checkSpelling()` restricted to the updates of the current word once the
answer has been compared: on a correct answer `spellingCorrect++` and
`SRS.calculate(correct ? 5 : 1, …)` (with `correct` true in that branch), on
an incorrect answer `spellingIncorrect++` and quality 1. -/
def checkSpellingWord (correct : Bool) (w : StudyWord) (now : ℤ) : StudyWord :=
  if correct then
    { w with
      stats := { w.stats with spellingCorrect := w.stats.spellingCorrect + 1 }
      srs := srsCalculate (if correct then 5 else 1)
               w.srs.repetitions w.srs.easeFactor w.srs.interval now }
  else
    { w with
      stats := { w.stats with spellingIncorrect := w.stats.spellingIncorrect + 1 }
      srs := srsCalculate 1 w.srs.repetitions w.srs.easeFactor w.srs.interval now }

/-- `handleMatchingTileClick` restricted to the updates of the matched word:
a successful pair does `word.stats.matchingCorrect++`, a failed pair
`word.stats.matchingIncorrect++`; `word.srs` is never touched and
`SRS.calculate` is never invoked from the matching game. -/
def matchingPairWord (success : Bool) (w : StudyWord) : StudyWord :=
  if success then
    { w with stats := { w.stats with matchingCorrect := w.stats.matchingCorrect + 1 } }
  else
    { w with stats := { w.stats with matchingIncorrect := w.stats.matchingIncorrect + 1 } }

/-! ## Shared helper lemmas -/

/-- The ease factor returned by `SRS.calculate` is at least 1.3, for every
input whatsoever: the update is floored at 1.3 before being rounded to two
decimals, and rounding a value `≥ 1.3` cannot go below `1.3`. -/
theorem srsCalculate_easeFactor_ge (q rep : ℤ) (ef : ℚ) (iv now : ℤ) :
    (13 : ℚ)/10 ≤ (srsCalculate q rep ef iv now).easeFactor := by
  show (13 : ℚ)/10 ≤ (round (_ * 100) : ℚ) / 100
  set ease0 : ℚ :=
    ef + (0.1 - (5 - (q : ℚ)) * (0.08 + (5 - (q : ℚ)) * 0.02)) with h0
  have hge : (13 : ℚ)/10 ≤ (if ease0 < 1.3 then (1.3 : ℚ) else ease0) := by
    split
    · norm_num
    · rename_i h
      push_neg at h
      linarith [h]
  have hr : (130 : ℤ) ≤ round ((if ease0 < 1.3 then (1.3 : ℚ) else ease0) * 100) := by
    rw [round_eq, Int.le_floor]
    push_cast
    nlinarith [hge]
  have : ((130 : ℤ) : ℚ) ≤ (round ((if ease0 < 1.3 then (1.3 : ℚ) else ease0) * 100) : ℚ) := by
    exact_mod_cast hr
  linarith [this]

/-- `applyReviews` — a whole review history folded through the scheduler,
each step reading the previous state exactly as `SRS.reviewWord` does. -/
def applyReviews (s : SRSData) (reviews : List (ℤ × ℤ)) : SRSData :=
  reviews.foldl (fun t p => srsCalculateState p.1 t p.2) s

theorem applyReviews_easeFactor_ge (reviews : List (ℤ × ℤ)) (s : SRSData)
    (h : (13 : ℚ)/10 ≤ s.easeFactor) :
    (13 : ℚ)/10 ≤ (applyReviews s reviews).easeFactor := by
  induction reviews generalizing s with
  | nil => exact h
  | cons p ps ih =>
    exact ih (srsCalculateState p.1 s p.2) (srsCalculate_easeFactor_ge _ _ _ _ _)

/-! ## C1 — level classification -/

/-- C1, counterexample: the claim asserts that every state with
`interval ≥ 21` that is not `new` classifies as `mastered` regardless of its
repetition count, but `SRS.getLevel` tests `repetitions < 2` *before*
`interval >= 21`: the state `{repetitions: 1, easeFactor: 2.5, interval: 21,
nextReview: null, lastReview: 1}` has `interval ≥ 21`, is not `new`, and
classifies as `learning`. -/
theorem getLevel_mastered_counterexample :
    21 ≤ (SRSData.mk 1 2.5 21 none (some 1)).interval ∧
    getLevel (SRSData.mk 1 2.5 21 none (some 1)) ≠ Level.new ∧
    getLevel (SRSData.mk 1 2.5 21 none (some 1)) ≠ Level.mastered ∧
    getLevel (SRSData.mk 1 2.5 21 none (some 1)) = Level.learning := by
  refine ⟨by decide, ?_, ?_, ?_⟩ <;> simp [getLevel, jsFalsyTime]

/-- C1, amended: `SRS.getLevel` classifies by testing, in order, `new` iff
`repetitions = 0` and `lastReview` is falsy (null **or** the timestamp 0);
otherwise `learning` iff `repetitions < 2`; otherwise `mastered` iff
`interval ≥ 21`; otherwise `reviewing`.  In particular a state with
`interval ≥ 21` but fewer than two repetitions classifies as `learning`,
not `mastered`. -/
theorem getLevel_spec (s : SRSData) :
    (getLevel s = Level.new ↔
      (s.repetitions = 0 ∧ jsFalsyTime s.lastReview = true)) ∧
    (getLevel s = Level.learning ↔
      (¬(s.repetitions = 0 ∧ jsFalsyTime s.lastReview = true) ∧ s.repetitions < 2)) ∧
    (getLevel s = Level.mastered ↔
      (¬(s.repetitions = 0 ∧ jsFalsyTime s.lastReview = true) ∧
        2 ≤ s.repetitions ∧ 21 ≤ s.interval)) ∧
    (getLevel s = Level.reviewing ↔
      (¬(s.repetitions = 0 ∧ jsFalsyTime s.lastReview = true) ∧
        2 ≤ s.repetitions ∧ s.interval < 21)) := by
  unfold getLevel
  split_ifs with h1 h2 h3 <;>
    refine ⟨?_, ?_, ?_, ?_⟩ <;> simp_all <;> omega

/-! ## C2 — no fail-fast validation of the quality argument -/

/-- C2: the spec requires a quality outside `[0,5]` to be rejected
(fail fast), but `SRS.calculate` validates nothing: called with quality 6 on
a fresh state it silently returns a fully computed state (repetitions 1,
ease factor 2.66, interval 1) instead of raising. -/
theorem srsCalculate_no_validation :
    srsCalculate 6 0 (5/2) 0 0 =
      { repetitions := 1, easeFactor := 133/50, interval := 1
        nextReview := some 86400000, lastReview := some 0 } := by
  unfold srsCalculate
  norm_num [SRSData.mk.injEq, round_eq]

/-! ## C8 — quality scores fed by the review-session driver -/

/-- C8: the driver feeds the scheduler quality 4 for a correct flashcard
answer, 1 for an incorrect one, 5 for a fully correct spelling answer, 1 for
an incorrect one; the matching game never invokes the scheduler — a matching
outcome increments only its own `stats` counter and leaves every other field,
in particular `srs`, unchanged. -/
theorem reviewDriver_quality_map (w : StudyWord) (now : ℤ) :
    (answerFlashcardWord true w now).srs = srsCalculateState 4 w.srs now ∧
    (answerFlashcardWord false w now).srs = srsCalculateState 1 w.srs now ∧
    (checkSpellingWord true w now).srs = srsCalculateState 5 w.srs now ∧
    (checkSpellingWord false w now).srs = srsCalculateState 1 w.srs now ∧
    (∀ b : Bool,
      (matchingPairWord b w).srs = w.srs ∧
      (matchingPairWord b w).word = w.word) ∧
    (matchingPairWord true w).stats =
      { w.stats with matchingCorrect := w.stats.matchingCorrect + 1 } ∧
    (matchingPairWord false w).stats =
      { w.stats with matchingIncorrect := w.stats.matchingIncorrect + 1 } := by
  refine ⟨rfl, rfl, rfl, rfl, ?_, rfl, rfl⟩
  intro b
  cases b <;> exact ⟨rfl, rfl⟩

/-! ## C9 — determinism and the hidden clock input -/

/-- C9, counterexample: the claim asserts that two calls of the scheduler
with identical `(quality, state)` arguments return identical states in every
field including `nextReview` and `lastReview`; but the source reads
`Date.now()`, so the same arguments evaluated at two different clock readings
give different timestamps. -/
theorem srsCalculate_clock_counterexample :
    srsCalculate 4 0 (5/2) 0 0 ≠ srsCalculate 4 0 (5/2) 0 86400000 := by
  intro h
  have h2 := congrArg SRSData.lastReview h
  simp only [srsCalculate] at h2
  exact absurd (Option.some.inj h2) (by decide)

/-- C9, amended: the scheduler is deterministic over `(quality, state)`
*plus the clock reading*: `repetitions`, `easeFactor` and `interval` depend
only on the declared arguments (identical for any two clock readings), while
`lastReview` is exactly the clock reading and `nextReview` is the clock
reading plus the new interval in days. -/
theorem srsCalculate_deterministic (q rep : ℤ) (ef : ℚ) (iv n₁ n₂ : ℤ) :
    (srsCalculate q rep ef iv n₁).repetitions =
      (srsCalculate q rep ef iv n₂).repetitions ∧
    (srsCalculate q rep ef iv n₁).easeFactor =
      (srsCalculate q rep ef iv n₂).easeFactor ∧
    (srsCalculate q rep ef iv n₁).interval =
      (srsCalculate q rep ef iv n₂).interval ∧
    (srsCalculate q rep ef iv n₁).lastReview = some n₁ ∧
    (srsCalculate q rep ef iv n₁).nextReview =
      some (n₁ + (srsCalculate q rep ef iv n₁).interval * 24 * 60 * 60 * 1000) := by
  exact ⟨rfl, rfl, rfl, rfl, rfl⟩

/-! ## C4 — repetition/interval update rule and the 1, 6, round(6·EF) progression -/

/-- C4: for quality in `[0,5]` and any state with a non-negative repetition
count, a pass (`quality ≥ 3`) increments `repetitions` and sets the interval
to 1 (prior repetitions 0), 6 (prior repetitions 1) or
`round(interval * easeFactor)` with the *input* ease factor (prior
repetitions ≥ 2); a fail (`quality < 3`) resets `repetitions` to 0 and the
interval to 1 regardless of history.  Consequently three consecutive
`schedule(4, …)` calls from the fresh state yield intervals 1, 6 and
`round(6 × easeFactor-after-the-second-call)`. -/
theorem srsCalculate_update_rule (q rep : ℤ) (ef : ℚ) (iv now : ℤ)
    (hq0 : 0 ≤ q) (hq5 : q ≤ 5) (hrep : 0 ≤ rep) :
    (3 ≤ q →
      (srsCalculate q rep ef iv now).repetitions = rep + 1 ∧
      (rep = 0 → (srsCalculate q rep ef iv now).interval = 1) ∧
      (rep = 1 → (srsCalculate q rep ef iv now).interval = 6) ∧
      (2 ≤ rep →
        (srsCalculate q rep ef iv now).interval = round ((iv : ℚ) * ef))) ∧
    (q < 3 →
      (srsCalculate q rep ef iv now).repetitions = 0 ∧
      (srsCalculate q rep ef iv now).interval = 1) ∧
    (∀ n₁ n₂ n₃ : ℤ,
      (srsCalculateState 4 initialData n₁).interval = 1 ∧
      (srsCalculateState 4 (srsCalculateState 4 initialData n₁) n₂).interval = 6 ∧
      (srsCalculateState 4
          (srsCalculateState 4 (srsCalculateState 4 initialData n₁) n₂) n₃).interval =
        round (6 * (srsCalculateState 4
          (srsCalculateState 4 initialData n₁) n₂).easeFactor)) := by
  refine ⟨?_, ?_, ?_⟩
  · intro h3
    unfold srsCalculate
    rw [if_pos h3]
    refine ⟨rfl, ?_, ?_, ?_⟩
    · intro h0
      simp [h0]
    · intro h1
      subst h1
      norm_num
    · intro h2
      have hne0 : rep ≠ 0 := by omega
      have hne1 : rep ≠ 1 := by omega
      simp [hne0, hne1]
  · intro hlt
    unfold srsCalculate
    rw [if_neg (by omega)]
    exact ⟨rfl, rfl⟩
  · intro n₁ n₂ n₃
    have hs1 : srsCalculateState 4 initialData n₁ =
        { repetitions := 1, easeFactor := 5/2, interval := 1
          nextReview := some (n₁ + 86400000), lastReview := some n₁ } := by
      unfold srsCalculateState srsCalculate initialData
      norm_num [SRSData.mk.injEq, round_eq]
    have hs2 : srsCalculateState 4 (srsCalculateState 4 initialData n₁) n₂ =
        { repetitions := 2, easeFactor := 5/2, interval := 6
          nextReview := some (n₂ + 518400000), lastReview := some n₂ } := by
      rw [hs1]
      unfold srsCalculateState srsCalculate
      norm_num [SRSData.mk.injEq, round_eq]
    refine ⟨by rw [hs1], by rw [hs2], ?_⟩
    rw [hs2]
    unfold srsCalculateState srsCalculate
    norm_num [round_eq]

/-- C4, witness at quality 4, fresh-state arguments. -/
theorem srsCalculate_update_rule_witness :
    (srsCalculate 4 0 (13/10) 0 1).repetitions = 0 + 1 :=
  ((srsCalculate_update_rule 4 0 (13/10) 0 1 (by decide) (by decide)
    (by decide)).1 (by decide)).1

/-! ## C5 — ease-factor formula, floor, and post-review invariants -/

/-- The unconditional SM-2 ease adjustment
`0.1 − (5 − quality) × (0.08 + (5 − quality) × 0.02)` of the spec. -/
def easeDelta (q : ℤ) : ℚ :=
  0.1 - (5 - (q : ℚ)) * (0.08 + (5 - (q : ℚ)) * 0.02)

/-- C5, counterexample: the claim asserts `interval ≥ 1` after any scheduled
review of a well-formed state (`easeFactor ≥ 1.3`, `repetitions ≥ 0`), but
for the state `{repetitions: 2, easeFactor: 2.5, interval: 0}` — admitted by
that well-formedness — a quality-3 review computes
`interval' = round(0 × 2.5) = 0`. -/
theorem srsCalculate_interval_zero_counterexample :
    (0 ≤ (3:ℤ) ∧ (3:ℤ) ≤ 5 ∧ (13:ℚ)/10 ≤ 5/2 ∧ 0 ≤ (2:ℤ)) ∧
    (srsCalculate 3 2 (5/2) 0 1).interval = 0 := by
  refine ⟨⟨by decide, by decide, by norm_num, by decide⟩, ?_⟩
  unfold srsCalculate
  norm_num [round_eq]

/-- C5, amended: for quality in `[0,5]` and a well-formed state — where
well-formedness additionally demands `interval ≥ 1` once `repetitions ≥ 2`,
which the counterexample forces — the scheduler returns
`easeFactor' = max(1.3, easeFactor + easeDelta) rounded to 2 decimals`
(pass or fail alike), `repetitions' ≥ 0`, `interval' ≥ 1`, and both
timestamps set; the ease factor never drops below 1.3 under any further
review sequence, and a reviewed entry never classifies as `new` again. -/
theorem srsCalculate_invariants (q rep : ℤ) (ef : ℚ) (iv now : ℤ)
    (hq0 : 0 ≤ q) (hq5 : q ≤ 5) (hef : (13:ℚ)/10 ≤ ef) (hrep : 0 ≤ rep)
    (hiv : 2 ≤ rep → 1 ≤ iv) (hnow : 0 < now) :
    (srsCalculate q rep ef iv now).easeFactor =
      (round (max ((13:ℚ)/10) (ef + easeDelta q) * 100) : ℚ) / 100 ∧
    (13:ℚ)/10 ≤ (srsCalculate q rep ef iv now).easeFactor ∧
    0 ≤ (srsCalculate q rep ef iv now).repetitions ∧
    1 ≤ (srsCalculate q rep ef iv now).interval ∧
    (srsCalculate q rep ef iv now).nextReview.isSome = true ∧
    (srsCalculate q rep ef iv now).lastReview.isSome = true ∧
    getLevel (srsCalculate q rep ef iv now) ≠ Level.new ∧
    (∀ reviews : List (ℤ × ℤ),
      (13:ℚ)/10 ≤ (applyReviews (srsCalculate q rep ef iv now) reviews).easeFactor) := by
  refine ⟨?_, srsCalculate_easeFactor_ge q rep ef iv now, ?_, ?_, ?_, ?_, ?_, ?_⟩
  · have h13 : (1.3:ℚ) = 13/10 := by norm_num
    show (round ((if ef + easeDelta q < 1.3 then (1.3:ℚ) else ef + easeDelta q) * 100) : ℚ) / 100
      = (round (max ((13:ℚ)/10) (ef + easeDelta q) * 100) : ℚ) / 100
    rcases lt_or_le (ef + easeDelta q) (13/10) with h | h
    · rw [if_pos (by rw [h13]; exact h), max_eq_left h.le, h13]
    · rw [if_neg (by rw [h13]; exact not_lt.2 h), max_eq_right h]
  · show (0:ℤ) ≤ (if 3 ≤ q then (rep + 1,
      if rep = 0 then 1 else if rep = 1 then (6:ℤ) else round ((iv:ℚ) * ef)) else ((0:ℤ), (1:ℤ))).1
    split <;> omega
  · show (1:ℤ) ≤ (if 3 ≤ q then (rep + 1,
      if rep = 0 then 1 else if rep = 1 then (6:ℤ) else round ((iv:ℚ) * ef)) else ((0:ℤ), (1:ℤ))).2
    split
    · rename_i h3
      split
      · omega
      · split
        · omega
        · rename_i h0 h1
          have h2 : 2 ≤ rep := by omega
          have hiv1 : 1 ≤ iv := hiv h2
          have hprod : (13:ℚ)/10 ≤ (iv:ℚ) * ef := by
            have hiv' : (1:ℚ) ≤ (iv:ℚ) := by exact_mod_cast hiv1
            nlinarith
          rw [round_eq, Int.le_floor]
          push_cast
          linarith
    · omega
  · rfl
  · rfl
  · show getLevel _ ≠ Level.new
    unfold getLevel
    rw [if_neg]
    · split
      · simp
      · split <;> simp
    · rintro ⟨-, hfalsy⟩
      have : (srsCalculate q rep ef iv now).lastReview = some now := rfl
      rw [this] at hfalsy
      simp only [jsFalsyTime, beq_iff_eq] at hfalsy
      omega
  · intro reviews
    exact applyReviews_easeFactor_ge reviews _ (srsCalculate_easeFactor_ge q rep ef iv now)

/-- C5, witness at quality 0, minimal ease factor. -/
theorem srsCalculate_invariants_witness :
    (13:ℚ)/10 ≤ (srsCalculate 0 0 (13/10) 0 1).easeFactor :=
  (srsCalculate_invariants 0 0 (13/10) 0 1 (by decide) (by decide)
    (le_refl ((13:ℚ)/10)) (by decide) (by omega) (by decide)).2.1

/-! ## C7 — end-to-end extraction scenario -/

/-- C7: on the workbook-page snippet of the spec the extraction pipeline
returns exactly one candidate — word `abundant`, phonetic `əˈbʌndənt`, POS
`形`, meaning `豊富な`, the single example pair, and the synonyms
`plentiful`, `copious` in order. -/
theorem parseSystemEitan_scenario :
    parseSystemEitan (str "56 abundant [əˈbʌndənt] 形 豊富な\nThe abundant harvest fed the village.\n村は豊富な収穫で満たされた。\n≒ plentiful, copious") =
      [{ word := str "abundant", meaning := str "豊富な",
         phonetic := str "əˈbʌndənt", pos := str "形",
         examples := [⟨str "The abundant harvest fed the village.",
                       str "村は豊富な収穫で満たされた。"⟩],
         synonyms := [str "plentiful", str "copious"], antonyms := [] }] := by
  decide

/-! ## C3 — totality of extraction -/

/-- Every character of a piece produced by `splitOnChar` is a character of
the original string. -/
theorem mem_of_mem_splitOnChar (c : Char) (xs : List Char) (piece : List Char)
    (hp : piece ∈ splitOnChar c xs) {a : Char} (ha : a ∈ piece) : a ∈ xs := by
  induction xs generalizing piece with
  | nil =>
    simp only [splitOnChar, List.mem_singleton] at hp
    subst hp
    cases ha
  | cons x xs ih =>
    simp only [splitOnChar] at hp
    split_ifs at hp with hx
    · rcases List.mem_cons.mp hp with h | h
      · subst h
        cases ha
      · exact List.mem_cons_of_mem x (ih piece h ha)
    · cases hsp : splitOnChar c xs with
      | nil =>
        rw [hsp] at hp
        simp only [List.mem_singleton] at hp
        subst hp
        simp only [List.mem_singleton] at ha
        exact List.mem_cons.mpr (Or.inl ha)
      | cons t ts =>
        rw [hsp] at hp
        rcases List.mem_cons.mp hp with h | h
        · subst h
          rcases List.mem_cons.mp ha with h' | h'
          · exact List.mem_cons.mpr (Or.inl h')
          · exact List.mem_cons_of_mem x
              (ih t (by rw [hsp]; exact List.mem_cons_self t ts) h')
        · exact List.mem_cons_of_mem x
            (ih piece (by rw [hsp]; exact List.mem_cons_of_mem t h) ha)

/-- Trimming a whitespace-only string yields the empty string. -/
theorem jsTrim_eq_nil_of_all_ws (l : List Char)
    (h : ∀ c ∈ l, jsWhitespace c = true) : jsTrim l = [] := by
  unfold jsTrim
  rw [List.dropWhile_eq_nil_iff.mpr h]
  rfl

/-- A whitespace-only text has no processed lines. -/
theorem processLines_eq_nil_of_all_ws (text : List Char)
    (h : ∀ c ∈ text, jsWhitespace c = true) : processLines text = [] := by
  unfold processLines
  rw [List.filter_eq_nil_iff]
  intro l hl
  rcases List.mem_map.mp hl with ⟨piece, hpiece, rfl⟩
  have hall : ∀ c ∈ piece, jsWhitespace c = true :=
    fun c hc => h c (mem_of_mem_splitOnChar '\n' text piece hpiece hc)
  simp [jsTrim_eq_nil_of_all_ws piece hall]

/-- C3: the extraction entry point is a total function — every input is
mapped to a list of entries; a `null`/non-string argument, the empty string
or a whitespace-only string yield the empty list; no exception is possible
(all functions of the embedding are total Lean functions). -/
theorem parseSystemEitan_total :
    parseSystemEitanInput none = [] ∧
    parseSystemEitan [] = [] ∧
    (∀ text : List Char, (∀ c ∈ text, jsWhitespace c = true) →
      parseSystemEitan text = []) ∧
    (∀ input : Option (List Char), ∃ es : List Entry,
      parseSystemEitanInput input = es) := by
  refine ⟨rfl, rfl, ?_, fun input => ⟨_, rfl⟩⟩
  intro text h
  have hl : processLines text = [] := processLines_eq_nil_of_all_ws text h
  unfold parseSystemEitan
  split_ifs with ht
  · rfl
  · simp [hl, matchIndices, extractWordsFromRawText, extractWordsLoop]

/-- C3, witness: the theorem applied to the whitespace-only string
`" \n\t "`. -/
theorem parseSystemEitan_total_witness :
    parseSystemEitan (str " \n\t ") = [] :=
  parseSystemEitan_total.2.2.1 (str " \n\t ") (by decide)

/-! ## C6 — due-set correctness and ordering -/

/-- The `nextReview` timestamp of an entry, `none` when the entry has no
`srs` object or the field is `null` — the claim's notion of "unset". -/
def nextReviewOf (w : Word) : Option ℤ :=
  match w.srs with
  | none => none
  | some s => s.nextReview

/-- The code's due filter agrees with the claim's predicate — `nextReview`
unset or `≤ now` — whenever the clock is non-negative (the code also lets a
stored timestamp `0` through the JavaScript falsiness test, but `0 ≤ now`
makes that the same set). -/
theorem isDueWord_iff (w : Word) (now : ℤ) (hnow : 0 ≤ now) :
    isDueWord w now = true ↔
      (nextReviewOf w = none ∨ ∃ t, nextReviewOf w = some t ∧ t ≤ now) := by
  rcases w with ⟨id, srs⟩
  cases srs with
  | none => simp [isDueWord, nextReviewOf]
  | some s =>
    rcases s with ⟨r, e, i, nr, lr⟩
    cases nr with
    | none => simp [isDueWord, nextReviewOf]
    | some t =>
      simp only [isDueWord, nextReviewOf, Bool.or_eq_true, beq_iff_eq,
        decide_eq_true_eq, Option.some.injEq, reduceCtorEq, false_or,
        exists_eq_left']
      omega

/-- C6: `SRS.getDueWords` returns exactly the entries whose `nextReview` is
unset or `≤ now` (a permutation of the filtered input, membership as the
claim states), sorted ascending by `nextReview` with unset keyed as 0; and
when every stored timestamp is non-negative — true of real epoch timestamps —
an entry with a positive key never precedes one keyed 0, i.e. never-reviewed
entries sort first. -/
theorem getDueWords_spec (words : List Word) (now : ℤ) (hnow : 0 ≤ now) :
    ((getDueWords words now).Perm
        (words.filter (fun w => isDueWord w now)) ∧
     (∀ w, w ∈ getDueWords words now ↔
        w ∈ words ∧
          (nextReviewOf w = none ∨ ∃ t, nextReviewOf w = some t ∧ t ≤ now)) ∧
     List.Pairwise (fun a b => dueSortKey a ≤ dueSortKey b)
       (getDueWords words now)) ∧
    ((∀ w ∈ words, 0 ≤ dueSortKey w) →
      List.Pairwise (fun a b => dueSortKey b = 0 → dueSortKey a = 0)
        (getDueWords words now)) := by
  have hperm : (getDueWords words now).Perm
      (words.filter (fun w => isDueWord w now)) :=
    List.mergeSort_perm _ _
  have hmem : ∀ w, w ∈ getDueWords words now ↔
      w ∈ words ∧
        (nextReviewOf w = none ∨ ∃ t, nextReviewOf w = some t ∧ t ≤ now) := by
    intro w
    rw [hperm.mem_iff, List.mem_filter, isDueWord_iff w now hnow]
  have hsorted : List.Pairwise (fun a b => dueSortKey a ≤ dueSortKey b)
      (getDueWords words now) := by
    have h := @List.sorted_mergeSort Word
      (fun a b => decide (dueSortKey a ≤ dueSortKey b))
      (fun a b c hab hbc => by
        simp only [decide_eq_true_eq] at hab hbc ⊢
        omega)
      (fun a b => by
        simp only [Bool.or_eq_true, decide_eq_true_eq]
        omega)
      (words.filter (fun w => isDueWord w now))
    exact h.imp (fun hab => by simpa using hab)
  refine ⟨⟨hperm, hmem, hsorted⟩, ?_⟩
  intro hnn
  refine hsorted.imp_of_mem ?_
  intro a b ha hb hab hb0
  have h0a : 0 ≤ dueSortKey a := hnn a ((hmem a).mp ha).1
  omega

/-- C6, witness: two concrete entries (one due at 10, one never reviewed)
selected at clock 20, with all stored timestamps non-negative. -/
theorem getDueWords_spec_witness :
    List.Pairwise (fun a b => dueSortKey b = 0 → dueSortKey a = 0)
      (getDueWords
        [⟨1, some ⟨0, 5/2, 0, some 10, none⟩⟩, ⟨2, none⟩] 20) :=
  (getDueWords_spec [⟨1, some ⟨0, 5/2, 0, some 10, none⟩⟩, ⟨2, none⟩] 20
    (by decide)).2 (by decide)

/-! ## C10 — marker-only inputs extract nothing -/

/-- The seed both headword patterns of `parseEntry` need at their start
position: a digit run, at least one whitespace character, then a Latin
letter. -/
def numWordSeedAt (l : List Char) : Bool :=
  let afterDigits := l.dropWhile isDigitCh
  let ws := afterDigits.takeWhile jsWhitespace
  let afterWs := afterDigits.dropWhile jsWhitespace
  1 ≤ ws.length &&
  (match afterWs with
   | c :: _ => isLatinCh c
   | [] => false)

/-- "Contains a digit followed by whitespace and a Latin letter": some suffix
beginning with a digit carries the seed. -/
def hasNumWordSeed : List Char → Bool
  | [] => false
  | c :: cs => (isDigitCh c && numWordSeedAt (c :: cs)) || hasNumWordSeed cs

theorem tryHeadwordAt_seed (l w : List Char)
    (h : tryHeadwordAt l = some w) : numWordSeedAt l = true := by
  simp only [tryHeadwordAt] at h
  simp only [numWordSeedAt]
  split_ifs at h with hws
  · cases hm : (l.dropWhile isDigitCh).dropWhile jsWhitespace with
    | nil =>
      rw [hm] at h
      simp at h
    | cons c cs =>
      rw [hm] at h
      by_cases hlatin : isLatinCh c
      · simp only [Bool.and_eq_true, decide_eq_true_eq, hm]
        exact ⟨hws, hlatin⟩
      · simp [hlatin] at h

theorem trySimpleHeadwordAt_seed (l w : List Char)
    (h : trySimpleHeadwordAt l = some w) : numWordSeedAt l = true := by
  simp only [trySimpleHeadwordAt] at h
  simp only [numWordSeedAt]
  split_ifs at h with hws
  · cases hm : (l.dropWhile isDigitCh).dropWhile jsWhitespace with
    | nil =>
      rw [hm] at h
      simp at h
    | cons c cs =>
      rw [hm] at h
      by_cases hlatin : isLatinCh c
      · simp only [Bool.and_eq_true, decide_eq_true_eq, hm]
        exact ⟨hws, hlatin⟩
      · simp [hlatin] at h

/-- A line without the digit-whitespace-letter seed defeats both headword
searches. -/
theorem searches_none_of_no_seed (l : List Char) (h : hasNumWordSeed l = false) :
    headwordSearch l = none ∧ simpleHeadwordSearch l = none := by
  induction l with
  | nil => exact ⟨rfl, rfl⟩
  | cons c cs ih =>
    rw [hasNumWordSeed] at h
    simp only [Bool.or_eq_false_iff, Bool.and_eq_false_iff] at h
    obtain ⟨h1, h2⟩ := h
    obtain ⟨hcs1, hcs2⟩ := ih h2
    have hseedAt : isDigitCh c = true → numWordSeedAt (c :: cs) = false := by
      intro hd
      rcases h1 with h1 | h1
      · rw [hd] at h1
        cases h1
      · exact h1
    constructor
    · rw [headwordSearch]
      by_cases hd : isDigitCh c
      · rw [if_pos hd]
        cases htry : tryHeadwordAt (c :: cs) with
        | none => exact hcs1
        | some w =>
          exact absurd (tryHeadwordAt_seed _ w htry)
            (by rw [hseedAt hd]; exact Bool.false_ne_true)
      · rw [if_neg hd]
        exact hcs1
    · rw [simpleHeadwordSearch]
      by_cases hd : isDigitCh c
      · rw [if_pos hd]
        cases htry : trySimpleHeadwordAt (c :: cs) with
        | none => exact hcs2
        | some w =>
          exact absurd (trySimpleHeadwordAt_seed _ w htry)
            (by rw [hseedAt hd]; exact Bool.false_ne_true)
      · rw [if_neg hd]
        exact hcs2

/-- The classification loop of `parseEntry` never touches the headword. -/
theorem foldl_parseEntryStep_word (lines : List (List Char))
    (st : Entry × ExamplePair) :
    (lines.foldl parseEntryStep st).1.word = st.1.word := by
  induction lines generalizing st with
  | nil => rfl
  | cons l ls ih =>
    rw [List.foldl_cons, ih]
    simp only [parseEntryStep]
    split_ifs <;> rfl

/-- The headword of a parsed group is exactly what the first-line headword
searches produced — the classification loop never changes it. -/
theorem parseEntry_word (firstLine : List Char) (rest : List (List Char))
    (e : Entry) (he : parseEntry (firstLine :: rest) = some e) :
    e.word = (match headwordSearch firstLine with
      | some w => jsTrim w
      | none =>
        match simpleHeadwordSearch firstLine with
        | some w => jsTrim w
        | none => []) := by
  simp only [parseEntry, Option.some.injEq] at he
  subst he
  split
  · exact foldl_parseEntryStep_word rest _
  · exact foldl_parseEntryStep_word rest _

/-- A group whose first line has no digit-whitespace-letter seed parses to an
entry with an empty headword. -/
theorem parseEntry_word_empty (firstLine : List Char) (rest : List (List Char))
    (h : hasNumWordSeed firstLine = false) :
    ∃ e, parseEntry (firstLine :: rest) = some e ∧ e.word = [] := by
  obtain ⟨h1, h2⟩ := searches_none_of_no_seed firstLine h
  cases he : parseEntry (firstLine :: rest) with
  | none => exact absurd he (by simp [parseEntry])
  | some e =>
    refine ⟨e, rfl, ?_⟩
    rw [parseEntry_word firstLine rest e he, h1, h2]

/-- Every index collected by `matchIndices p ls k` is at least `k`. -/
theorem matchIndices_ge (p : List Char → Bool) (ls : List (List Char))
    (k : ℕ) : ∀ i ∈ matchIndices p ls k, k ≤ i := by
  induction ls generalizing k with
  | nil => intro i hi; cases hi
  | cons l ls ih =>
    intro i hi
    rw [matchIndices] at hi
    split_ifs at hi with hp
    · rcases List.mem_cons.mp hi with h | h
      · omega
      · have := ih (k + 1) i h
        omega
    · have := ih (k + 1) i hi
      omega

/-- An index collected by `matchIndices p ls k` addresses a line satisfying
`p`. -/
theorem matchIndices_get (p : List Char → Bool) (ls : List (List Char))
    (k : ℕ) : ∀ i ∈ matchIndices p ls k,
      ∃ l, ls[i - k]? = some l ∧ p l = true := by
  induction ls generalizing k with
  | nil => intro i hi; cases hi
  | cons l ls ih =>
    intro i hi
    rw [matchIndices] at hi
    split_ifs at hi with hp
    · rcases List.mem_cons.mp hi with h | h
      · subst h
        exact ⟨l, by simp, hp⟩
      · have hge := matchIndices_ge p ls (k + 1) i h
        obtain ⟨l', hl', hp'⟩ := ih (k + 1) i h
        refine ⟨l', ?_, hp'⟩
        have : i - k = (i - (k + 1)) + 1 := by omega
        rw [this]
        simpa using hl'
    · have hge := matchIndices_ge p ls (k + 1) i hi
      obtain ⟨l', hl', hp'⟩ := ih (k + 1) i hi
      refine ⟨l', ?_, hp'⟩
      have : i - k = (i - (k + 1)) + 1 := by omega
      rw [this]
      simpa using hl'

/-- `matchIndices` is empty exactly when no line matches. -/
theorem matchIndices_eq_nil_iff (p : List Char → Bool) (ls : List (List Char))
    (k : ℕ) : matchIndices p ls k = [] ↔ ∀ l ∈ ls, p l = false := by
  induction ls generalizing k with
  | nil => simp [matchIndices]
  | cons l ls ih =>
    rw [matchIndices]
    split_ifs with hp
    · simp [hp]
    · rw [ih (k + 1)]
      simp only [List.forall_mem_cons]
      constructor
      · intro h
        exact ⟨Bool.eq_false_iff.mpr hp, h⟩
      · intro h
        exact h.2

/-- The first line of every nonempty group produced by `sliceGroups` is the
line addressed by one of the boundary indices. -/
theorem sliceGroups_head (lines : List (List Char)) :
    ∀ (idx : List ℕ) (g : List (List Char)), g ∈ sliceGroups lines idx →
      ∀ f t, g = f :: t → ∃ i ∈ idx, lines[i]? = some f
  | [], g, hg => by cases hg
  | [i], g, hg => by
    intro f t hft
    rw [sliceGroups, List.mem_singleton] at hg
    subst hg
    refine ⟨i, List.mem_singleton.mpr rfl, ?_⟩
    have h0 : (lines.drop i)[0]? = some f := by
      rw [hft]
      simp
    rw [List.getElem?_drop] at h0
    simpa using h0
  | i :: j :: rest, g, hg => by
    intro f t hft
    rw [sliceGroups] at hg
    rcases List.mem_cons.mp hg with h | h
    · subst h
      refine ⟨i, List.mem_cons_self i (j :: rest), ?_⟩
      have h0 : ((lines.drop i).take (j - i))[0]? = some f := by
        rw [hft]
        simp
      rw [List.getElem?_take] at h0
      split_ifs at h0 with hlt
      rw [List.getElem?_drop] at h0
      simpa using h0
    · obtain ⟨i', hi', hf⟩ := sliceGroups_head lines (j :: rest) g h f t hft
      exact ⟨i', List.mem_cons_of_mem i hi', hf⟩

/-- C10: when no line is a numbered-entry boundary but some line is a
phonetic/POS-marker boundary, and no marker-boundary line contains a digit
followed by whitespace and a Latin letter, `parseSystemEitan` returns the
empty list: both headword patterns of `parseEntry` require a leading number,
so every marker-strategy group yields an empty headword and is dropped. -/
theorem parseSystemEitan_marker_only_empty (text : List Char)
    (h1 : ∀ l ∈ processLines text, entryStartTest l = false)
    (h2 : ∃ l ∈ processLines text, markerBoundaryTest l = true)
    (h3 : ∀ l ∈ processLines text, markerBoundaryTest l = true →
      hasNumWordSeed l = false) :
    parseSystemEitan text = [] := by
  by_cases ht : text = []
  · obtain ⟨l, hl, -⟩ := h2
    rw [ht] at hl
    rw [show processLines [] = ([] : List (List Char)) from rfl] at hl
    cases hl
  · have hidx1 : matchIndices entryStartTest (processLines text) 0 = [] :=
      (matchIndices_eq_nil_iff _ _ 0).mpr h1
    have hidx2 : matchIndices markerBoundaryTest (processLines text) 0 ≠ [] := by
      rw [Ne, matchIndices_eq_nil_iff]
      obtain ⟨l, hl, hp⟩ := h2
      intro hall
      rw [hall l hl] at hp
      cases hp
    simp only [parseSystemEitan, if_neg ht, hidx1, if_pos rfl, if_true, if_neg hidx2]
    rw [List.filterMap_eq_nil_iff]
    intro g hg
    cases hgc : g with
    | nil => rfl
    | cons f gt =>
      obtain ⟨i, hi, hf⟩ :=
        sliceGroups_head (processLines text) _ g hg f gt hgc
      obtain ⟨l', hl', hp'⟩ := matchIndices_get markerBoundaryTest
        (processLines text) 0 i hi
      rw [Nat.sub_zero] at hl'
      rw [hf] at hl'
      have hfl : l' = f := by
        exact (Option.some.inj hl').symm ▸ rfl
      subst hfl
      have hmem : l' ∈ processLines text := List.getElem?_mem hf
      have hseed : hasNumWordSeed l' = false := h3 l' hmem hp'
      obtain ⟨e, he, hw⟩ := parseEntry_word_empty l' gt hseed
      rw [he]
      simp [hw]

/-- C10, witness: the single line `"hello [abc]"` matches the marker
boundary, matches no numbered-entry boundary, contains no digit at all, and
extracts nothing. -/
theorem parseSystemEitan_marker_only_empty_witness :
    parseSystemEitan (str "hello [abc]") = [] :=
  parseSystemEitan_marker_only_empty (str "hello [abc]")
    (by decide) (by decide) (by decide)

end Vocabsnap
